import Mathlib

/-!
Verification development for the error-canceling reaction core of
`arkane/isodesmic.py` (RMG-Py).  The Python classes are shallowly embedded:
pure computations become Lean functions over `ℚ`/`ℤ`/`Nat` (Python floats are
modelled by rationals, with `Option ℚ` where an IEEE NaN can appear), the
mutable `ConstraintMap`/`SpeciesConstraints` state is threaded explicitly, and
fallible operations (a NumPy out-of-bounds index assignment, a Python
`TypeError`) are modelled with `Except`/dedicated result constructors.
The external MILP solver backends (lpsolve55 / pyomo) are modelled as an
oracle producing a solution vector; the constraint systems that
`find_error_canceling_reaction` installs for each backend are embedded as
explicit predicates so that theorems can quantify over every solution the
backend could legally return.
-/

/-- Molecular structure collaborator (rmgpy `Molecule`), consumed read-only:
`get_element_count()` is `elementCount` (an insertion-ordered dict, modelled
as an association list), `enumerate_bonds()` is `bondCount`, and
`getSmallestSetOfSmallestRings()` is modelled by the list of the ring sizes
(`len(ring)` for each ring). -/
structure Molecule where
  elementCount : List (String × Nat)
  bondCount : List (String × Nat)
  rings : List Nat
deriving DecidableEq, Inhabited

/-- ErrorCancelingSpecies (isodesmic.py lines 59-73).  The two enthalpies are
stored as their SI magnitudes (`.value_si`), modelled as rationals.  The
target's `high_level_hf298` attribute is absent in Python; it is never read by
any code embedded here, so it is kept as an ordinary field. -/
structure ErrorCancelingSpecies where
  molecule : Molecule
  low_level_hf298 : ℚ
  high_level_hf298 : ℚ
deriving DecidableEq, Inhabited

/-- ScalarQuantity collaborator: a magnitude plus a unit string.  `value_si`
is `none` when the Python float is the IEEE NaN (which `ℚ` cannot represent)
and `some q` otherwise. -/
structure ScalarQuantity where
  value_si : Option ℚ
  units : String
deriving DecidableEq

/-- ErrorCancelingReaction (isodesmic.py lines 76-88): the target plus the
`species` dict mapping benchmark species to signed stoichiometric
coefficients.  A Python dict is modelled as an insertion-ordered association
list with unique keys. -/
structure ErrorCancelingReaction where
  target : ErrorCancelingSpecies
  species : List (ErrorCancelingSpecies × ℤ)
deriving DecidableEq, Inhabited

/-- Value computed by `ErrorCancelingReaction.calculate_target_thermo`
(isodesmic.py lines 90-100): `low_level_h_rxn` is the sum over `species.items()`
of `low_level_hf298.value_si * coefficient` minus the target's low level
enthalpy, and the returned magnitude subtracts it from the corresponding high
level sum. -/
def target_thermo_value (rxn : ErrorCancelingReaction) : ℚ :=
  let low_level_h_rxn :=
    (rxn.species.map (fun spec => spec.1.low_level_hf298 * (spec.2 : ℚ))).sum
      - rxn.target.low_level_hf298
  (rxn.species.map (fun spec => spec.1.high_level_hf298 * (spec.2 : ℚ))).sum
    - low_level_h_rxn

/-- calculate_target_thermo returns `ScalarQuantity(target_thermo, 'J/mol')`
(isodesmic.py line 100). -/
def calculate_target_thermo (rxn : ErrorCancelingReaction) : ScalarQuantity :=
  ⟨some (target_thermo_value rxn), "J/mol"⟩

/-- Lookup in a Python dict modelled as an association list
(`ConstraintMap.mapping.__getitem__` before the `KeyError` fallback). -/
def lookupKey : List (String × Nat) → String → Option Nat
  | [], _ => none
  | (k, v) :: rest, key => if k = key then some v else lookupKey rest key

/-- ConstraintMap.__getitem__ (isodesmic.py lines 111-116): a hit returns the
stored index and leaves the mapping unchanged; a miss stores
`len(self.mapping)` under the key (appended, preserving insertion order) and
returns it. -/
def cmapGet (m : List (String × Nat)) (key : String) : Nat × List (String × Nat) :=
  match lookupKey m key with
  | some v => (v, m)
  | none => (m.length, m ++ [(key, m.length)])

/-- SpeciesConstraints (isodesmic.py lines 122-138).  `constraint_map` is the
owned `ConstraintMap.mapping` dict. -/
structure SpeciesConstraints where
  conserve_bonds : Bool
  conserve_ring_size : Bool
  allowed_atom_types : List String
  constraint_map : List (String × Nat)
  max_num_constraints : Nat
deriving DecidableEq, Inhabited

/-- SpeciesConstraints.__init__ (isodesmic.py lines 124-138): the map starts
empty and `max_num_constraints = 3*(len(allowed_atom_types)**2)+10`. -/
def mkSpeciesConstraints (allowed_atom_types : List String)
    (conserve_bonds : Bool) (conserve_ring_size : Bool) :
    SpeciesConstraints :=
  { conserve_bonds := conserve_bonds
    conserve_ring_size := conserve_ring_size
    allowed_atom_types := allowed_atom_types
    constraint_map := []
    max_num_constraints := 3 * allowed_atom_types.length ^ 2 + 10 }

/-- Ring-size label `'{0}_ring'.format(len(ring))` (isodesmic.py line 161). -/
def ringLabel (n : Nat) : String := toString n ++ "_ring"

/-- Sequence of `(label, count)` increments performed by
`SpeciesConstraints.enumerate` (isodesmic.py lines 146-161): first the element
counts, then (if `conserve_bonds`) the bond counts, then (if
`conserve_ring_size`) one increment per ring under its ring-size label. -/
def enumItems (sc : SpeciesConstraints) (mol : Molecule) : List (String × Nat) :=
  mol.elementCount
    ++ (if sc.conserve_bonds then mol.bondCount else [])
    ++ (if sc.conserve_ring_size then mol.rings.map (fun r => (ringLabel r, 1)) else [])

/-- Processing loop of `SpeciesConstraints.enumerate`: each item looks its
label up in the constraint map (inserting on a miss, which mutates the map
*before* the vector access) and then increments
`constraint_vector[index]`.  An index `≥ max_num_constraints` is out of bounds
for the NumPy vector `np.zeros(max_num_constraints)`: the call fails there
(IndexError), with the map retaining the insertion already performed. -/
def processItems (maxc : Nat) :
    List (String × Nat) → List ℤ → List (String × Nat) →
    Except Unit (List ℤ) × List (String × Nat)
  | [], vec, m => (.ok vec, m)
  | (label, count) :: rest, vec, m =>
    let p := cmapGet m label
    if p.1 < maxc then
      processItems maxc rest (vec.set p.1 (vec.getD p.1 0 + (count : ℤ))) p.2
    else
      (.error (), p.2)

/-- SpeciesConstraints.enumerate (isodesmic.py lines 140-163), with the
mutation of `self.constraint_map` made explicit: returns the (untrimmed)
constraint vector, or an error on label overflow, together with the updated
instance. -/
def SpeciesConstraints.enumerate (sc : SpeciesConstraints) (mol : Molecule) :
    Except Unit (List ℤ) × SpeciesConstraints :=
  let r := processItems sc.max_num_constraints (enumItems sc mol)
    (List.replicate sc.max_num_constraints 0) sc.constraint_map
  (r.1, { sc with constraint_map := r.2 })

/-- Inner `for label in elements: if label not in allowed_elements: break`
check of ErrorCancelingScheme.__init__ (isodesmic.py lines 185-187): the
`for/else` retains the species exactly when the loop runs to completion. -/
def elemCheck : List String → List String → Bool
  | [], _ => true
  | label :: rest, allowed =>
    if label ∈ allowed then elemCheck rest allowed else false

/-- Pruning loop of ErrorCancelingScheme.__init__ (isodesmic.py lines
182-189): appends each benchmark species whose element labels all lie in
`allowed_elements`. -/
def pruneLoop : List ErrorCancelingSpecies → List String → List ErrorCancelingSpecies
  | [], _ => []
  | s :: rest, allowed =>
    if elemCheck (s.molecule.elementCount.map Prod.fst) allowed then
      s :: pruneLoop rest allowed
    else
      pruneLoop rest allowed

/-- ErrorCancelingScheme state (isodesmic.py lines 166-192).  The
`target_constraint`/`constraint_matrix` caches are `None` until
`initialize()`; that is modelled by the empty list, which no embedded code
ever reads before the caches are filled in. -/
structure ErrorCancelingScheme where
  target : ErrorCancelingSpecies
  constraints : SpeciesConstraints
  benchmark_set : List ErrorCancelingSpecies
  target_constraint : List ℤ
  constraint_matrix : List (List ℤ)
deriving DecidableEq, Inhabited

/-- ErrorCancelingScheme.__init__ (isodesmic.py lines 169-192):
`allowed_elements` is the key list of the target's element counts, the
constraints object is built from it (with both conservation flags defaulted
to `True`), and the benchmark set is pruned. -/
def mkErrorCancelingScheme (target : ErrorCancelingSpecies)
    (benchmark_set : List ErrorCancelingSpecies) : ErrorCancelingScheme :=
  let allowed_elements := target.molecule.elementCount.map Prod.fst
  { target := target
    constraints := mkSpeciesConstraints allowed_elements true true
    benchmark_set := pruneLoop benchmark_set allowed_elements
    target_constraint := []
    constraint_matrix := [] }

/-- Row-enumeration loop of `calculate_constraints` (isodesmic.py lines
202-205), threading the shared constraint-map state through the benchmark
species in order. -/
def enumRows (sc : SpeciesConstraints) :
    List ErrorCancelingSpecies → Except Unit (List (List ℤ)) × SpeciesConstraints
  | [] => (.ok [], sc)
  | s :: rest =>
    match sc.enumerate s.molecule with
    | (.error e, sc') => (.error e, sc')
    | (.ok row, sc') =>
      match enumRows sc' rest with
      | (.error e, sc'') => (.error e, sc'')
      | (.ok rows, sc'') => (.ok (row :: rows), sc'')

/-- ErrorCancelingScheme.calculate_constraints (isodesmic.py lines 199-212):
enumerate the target first, then every benchmark species, then trim target
vector and matrix columns at `cutoff_index = len(constraint_map)`. -/
def calculate_constraints (S : ErrorCancelingScheme) :
    Except Unit (List ℤ × List (List ℤ)) × SpeciesConstraints :=
  match S.constraints.enumerate S.target.molecule with
  | (.error e, sc') => (.error e, sc')
  | (.ok tvec, sc') =>
    match enumRows sc' S.benchmark_set with
    | (.error e, sc'') => (.error e, sc'')
    | (.ok rows, sc'') =>
      let cutoff := sc''.constraint_map.length
      (.ok (tvec.take cutoff, rows.map (fun r => r.take cutoff)), sc'')

/-- ErrorCancelingScheme.initialize (isodesmic.py lines 194-197): fill the
`target_constraint` and `constraint_matrix` caches. -/
def initCaches (S : ErrorCancelingScheme) : Except Unit ErrorCancelingScheme :=
  match calculate_constraints S with
  | (.error e, _) => .error e
  | (.ok (tvec, rows), sc') =>
    .ok { S with constraints := sc', target_constraint := tvec,
                 constraint_matrix := rows }

/-- Matrix `np.take(self.constraint_matrix, benchmark_subset, axis=0)`
(isodesmic.py line 225): the rows of the cached constraint matrix selected by
the subset, before the `np.tile` doubling. -/
def takenMatrix (S : ErrorCancelingScheme) (subset : List Nat) : List (List ℤ) :=
  subset.map (fun i => S.constraint_matrix.getD i [])

/-- Entry `c_matrix[k, j]` of the taken (un-doubled) matrix. -/
def takenEntry (S : ErrorCancelingScheme) (subset : List Nat) (k j : Nat) : ℤ :=
  ((takenMatrix S subset).getD k []).getD j 0

/-- Equality constraints installed for every column `j` (isodesmic.py lines
277-279 for lpsolve, lines 250-254 for pyomo — both install the same system):
the reactant-half rows of the doubled matrix (`c_matrix[:split, j]`) enter
positively, the product-half rows negatively, and the right-hand side is
`targets[j] = -target_constraint[j]`.  Variable `split + k` is the product
copy of subset row `k`. -/
def milpBalance (S : ErrorCancelingScheme) (subset : List Nat) (sol : List ℤ) : Prop :=
  ∀ j, j < S.target_constraint.length →
    ((List.range subset.length).map
        (fun k => sol.getD k 0 * takenEntry S subset k j)).sum
      - ((List.range subset.length).map
        (fun k => sol.getD (subset.length + k) 0 * takenEntry S subset k j)).sum
    = -(S.target_constraint.getD j 0)

/-- Full constraint system of the `'lpsolve'` branch (isodesmic.py lines
267-291): non-negative integers (lpsolve default lower bound 0 plus
`set_int`), the per-column balance equalities, the single
`np.ones(m) ≤ 20` row, and the per-variable upper bound of 4. -/
def lpsolveFeasible (S : ErrorCancelingScheme) (subset : List Nat) (sol : List ℤ) : Prop :=
  sol.length = 2 * subset.length
    ∧ (∀ x ∈ sol, 0 ≤ x)
    ∧ (∀ x ∈ sol, x ≤ 4)
    ∧ sol.sum ≤ 20
    ∧ milpBalance S subset sol

/-- Full constraint system of the `'pyomo'` branch (isodesmic.py lines
233-254): the variables are non-negative integers and the balance equalities
hold.  The pyomo formulation installs *no* per-variable upper bound and *no*
total-coefficient row. -/
def pyomoFeasible (S : ErrorCancelingScheme) (subset : List Nat) (sol : List ℤ) : Prop :=
  sol.length = 2 * subset.length
    ∧ (∀ x ∈ sol, 0 ≤ x)
    ∧ milpBalance S subset sol

/-- Python `dict.update({k: v})` on an association list: an existing key keeps
its position and gets the new value, a new key is appended. -/
def dictUpdate (l : List (ErrorCancelingSpecies × ℤ)) (k : ErrorCancelingSpecies)
    (v : ℤ) : List (ErrorCancelingSpecies × ℤ) :=
  if l.any (fun p => p.1 = k) then
    l.map (fun p => if p.1 = k then (k, v) else p)
  else
    l ++ [(k, v)]

/-- Species listed by a subset position: `self.benchmark_set[benchmark_subset[k]]`
(isodesmic.py lines 305 and 307). -/
def speciesAt (S : ErrorCancelingScheme) (subset : List Nat) (k : Nat) :
    ErrorCancelingSpecies :=
  S.benchmark_set.getD (subset.getD k 0) default

/-- The dict insertion performed for solution entry `index` in the assembly
loop (isodesmic.py lines 301-307), or `none` when `v ≤ 0` and the entry is
skipped: a reactant-half index (`index < split`) inserts coefficient `-v`, a
product-half index inserts `+v` under `benchmark_subset[index % split]`. -/
def solInsertion (S : ErrorCancelingScheme) (subset : List Nat) (sol : List ℤ)
    (index : Nat) : Option (ErrorCancelingSpecies × ℤ) :=
  let split := subset.length
  let v := sol.getD index 0
  if 0 < v then
    some (if index < split then (speciesAt S subset index, -v)
          else (speciesAt S subset (index % split), v))
  else
    none

/-- Folding a list of optional dict insertions over an accumulator. -/
def applyUpdates (acc : List (ErrorCancelingSpecies × ℤ)) :
    List (Option (ErrorCancelingSpecies × ℤ)) → List (ErrorCancelingSpecies × ℤ)
  | [] => acc
  | none :: rest => applyUpdates acc rest
  | some (k, v) :: rest => applyUpdates (dictUpdate acc k v) rest

/-- Assembly of the returned reaction and of `subset_indices` from the solver
solution (isodesmic.py lines 299-309): iterate over `enumerate(solution)`;
every strictly positive entry appends `index % split` to the index list and
performs the corresponding `reaction.species.update`. -/
def findAssemble (S : ErrorCancelingScheme) (subset : List Nat) (sol : List ℤ) :
    ErrorCancelingReaction × List Nat :=
  let split := subset.length
  ({ target := S.target
     species := applyUpdates []
       ((List.range sol.length).map (solInsertion S subset sol)) },
   ((List.range sol.length).filter (fun i => 0 < sol.getD i 0)).map
     (fun i => i % split))

/-- Dynamic value returned by `find_error_canceling_reaction`: on success a
`(reaction, np.array(subset_indices))` pair (line 309), on an lpsolve failure
the pair `(None, None)` (line 294), and on a pyomo failure the bare `None` of
line 262 — which is *not* a pair. -/
inductive FindResult where
  | found (reaction : ErrorCancelingReaction) (subset_indices : List Nat)
  | pairNone
  | bareNone
deriving DecidableEq

/-- Solver backend selected by the `milp_software` argument. -/
inductive Backend where
  | lpsolve
  | pyomo
deriving DecidableEq

/-- External MILP solve, abstracted: given the benchmark subset it either
produces the solver's solution vector or fails (lpsolve `status != 0`, pyomo
`status != ok`). -/
def MilpOracle := List Nat → Option (List ℤ)

/-- ErrorCancelingScheme.find_error_canceling_reaction (isodesmic.py lines
214-309) with the solve abstracted by `oracle`.  The scheme state is threaded
explicitly; the method performs no assignment to any scheme attribute. -/
def find_error_canceling_reaction (S : ErrorCancelingScheme) (backend : Backend)
    (oracle : MilpOracle) (subset : List Nat) : FindResult × ErrorCancelingScheme :=
  match oracle subset with
  | some sol =>
    let r := findAssemble S subset sol
    (.found r.1 r.2, S)
  | none =>
    match backend with
    | .lpsolve => (.pairNone, S)
    | .pyomo => (.bareNone, S)

/-- Outcome of `multiple_error_canceling_reaction_search`: the returned
reaction list, or the `TypeError` raised at the tuple unpacking
`reaction, subset_indices = self.find_error_canceling_reaction(...)`
(isodesmic.py line 320) when the callee returned a bare `None`, or exhaustion
of the step budget of the embedding. -/
inductive SearchResult where
  | ok (reactions : List ErrorCancelingReaction)
  | typeError
  | outOfFuel
deriving DecidableEq

/-- While-loop of `multiple_error_canceling_reaction_search` (isodesmic.py
lines 316-327), as explicit recursion on a step budget.  The loop runs while
the queue is non-empty and fewer than `n_reactions_max` reactions were found;
an empty subset is discarded; a `(None, None)` result is skipped; a found
reaction is appended and, for every entry of `subset_indices`, the subset
with that position removed (`np.delete`) is pushed onto the queue. -/
def searchLoop (backend : Backend) (oracle : MilpOracle) (n_reactions_max : Nat) :
    Nat → ErrorCancelingScheme → List (List Nat) → List ErrorCancelingReaction →
    SearchResult × ErrorCancelingScheme
  | 0, S, _, _ => (.outOfFuel, S)
  | fuel + 1, S, queue, reaction_list =>
    if queue.length ≠ 0 ∧ reaction_list.length < n_reactions_max then
      match queue with
      | [] => (.ok reaction_list, S)
      | subset :: rest =>
        if subset.length = 0 then
          searchLoop backend oracle n_reactions_max fuel S rest reaction_list
        else
          match find_error_canceling_reaction S backend oracle subset with
          | (.bareNone, S') => (.typeError, S')
          | (.pairNone, S') =>
            searchLoop backend oracle n_reactions_max fuel S' rest reaction_list
          | (.found reaction subset_indices, S') =>
            searchLoop backend oracle n_reactions_max fuel S'
              (rest ++ subset_indices.map (fun index => subset.eraseIdx index))
              (reaction_list ++ [reaction])
    else
      (.ok reaction_list, S)

/-- ErrorCancelingScheme.multiple_error_canceling_reaction_search (isodesmic.py
lines 311-329): the queue starts with `np.arange(0, len(self.benchmark_set))`
and the reaction list starts empty. -/
def multiple_error_canceling_reaction_search (S : ErrorCancelingScheme)
    (backend : Backend) (oracle : MilpOracle) (n_reactions_max : Nat) (fuel : Nat) :
    SearchResult × ErrorCancelingScheme :=
  searchLoop backend oracle n_reactions_max fuel S
    [List.range S.benchmark_set.length] []

/-- Insertion into a sorted list of rationals, used to model NumPy's sort
inside `np.median`. -/
def sortedInsert (x : ℚ) : List ℚ → List ℚ
  | [] => [x]
  | y :: rest => if x ≤ y then x :: y :: rest else y :: sortedInsert x rest

/-- Sorting a list of rationals ascending. -/
def sortAsc : List ℚ → List ℚ
  | [] => []
  | x :: rest => sortedInsert x (sortAsc rest)

/-- np.median: on an empty array NumPy yields NaN (modelled `none`); otherwise
the middle element of the sorted data, or the mean of the two middle
elements for even length. -/
def npMedian (l : List ℚ) : Option ℚ :=
  if l.length = 0 then none
  else
    let s := sortAsc l
    if l.length % 2 = 1 then some (s.getD (l.length / 2) 0)
    else some ((s.getD (l.length / 2 - 1) 0 + s.getD (l.length / 2) 0) / 2)

/-- Outcome of `calculate_target_enthalpy`: the returned ScalarQuantity, or a
propagated `TypeError` from the search, or budget exhaustion. -/
inductive EnthalpyResult where
  | ok (q : ScalarQuantity)
  | typeError
  | outOfFuel
deriving DecidableEq

/-- ErrorCancelingScheme.calculate_target_enthalpy (isodesmic.py lines
331-338): run the search, take every reaction's
`calculate_target_thermo().value_si`, and return
`ScalarQuantity(np.median(h298_list), 'J/mol')` — with no special casing of an
empty reaction list. -/
def calculate_target_enthalpy (S : ErrorCancelingScheme) (backend : Backend)
    (oracle : MilpOracle) (n_reactions_max : Nat) (fuel : Nat) :
    EnthalpyResult × ErrorCancelingScheme :=
  match multiple_error_canceling_reaction_search S backend oracle n_reactions_max fuel with
  | (.ok reaction_list, S') =>
    (.ok ⟨npMedian (reaction_list.map target_thermo_value), "J/mol"⟩, S')
  | (.typeError, S') => (.typeError, S')
  | (.outOfFuel, S') => (.outOfFuel, S')

/-! Concrete molecules, species and schemes used to instantiate theorems. -/

/-- Methane-like structure: one carbon, four hydrogens, four C-H bonds. -/
def molCH4 : Molecule := ⟨[("C", 1), ("H", 4)], [("C-H", 4)], []⟩

/-- Ethane-like structure sharing the target's element set. -/
def molC2H6 : Molecule := ⟨[("C", 2), ("H", 6)], [("C-C", 1), ("C-H", 6)], []⟩

/-- Structure containing a silicon atom, absent from the CH targets. -/
def molSiH4 : Molecule := ⟨[("Si", 1), ("H", 4)], [("Si-H", 4)], []⟩

/-- Structure of a target that contains silicon besides carbon. -/
def molCSi : Molecule := ⟨[("C", 1), ("Si", 1)], [("C-Si", 1)], []⟩

/-- Target species (no meaningful high-level value). -/
def specTargetCH : ErrorCancelingSpecies := ⟨molCH4, 5, 0⟩

/-- Benchmark species compatible with `specTargetCH`. -/
def specBenchC2 : ErrorCancelingSpecies := ⟨molC2H6, 3, 7⟩

/-- Benchmark species containing silicon. -/
def specBenchSi : ErrorCancelingSpecies := ⟨molSiH4, 2, 4⟩

/-- Target species containing carbon and silicon. -/
def specTargetCSi : ErrorCancelingSpecies := ⟨molCSi, 6, 0⟩

/-- Carbon-only structure, compatible with any target containing carbon. -/
def molC2bare : Molecule := ⟨[("C", 2)], [("C-C", 1)], []⟩

/-- Carbon-only benchmark species. -/
def specBenchCC : ErrorCancelingSpecies := ⟨molC2bare, 1, 2⟩

/-- Concrete reaction used to instantiate the thermochemistry theorem. -/
def rxnConcrete : ErrorCancelingReaction := ⟨specTargetCH, [(specBenchC2, 2)]⟩

/-! C2 — `calculate_target_thermo` computes
`Σ(coefficient·high) − (Σ(coefficient·low) − target.low)` in J/mol. -/

lemma sum_map_high_comm (l : List (ErrorCancelingSpecies × ℤ)) :
    (l.map (fun spec => spec.1.high_level_hf298 * (spec.2 : ℚ))).sum
      = (l.map (fun spec => (spec.2 : ℚ) * spec.1.high_level_hf298)).sum := by
  induction l with
  | nil => rfl
  | cons a t ih => simp [ih, mul_comm]

lemma sum_map_low_comm (l : List (ErrorCancelingSpecies × ℤ)) :
    (l.map (fun spec => spec.1.low_level_hf298 * (spec.2 : ℚ))).sum
      = (l.map (fun spec => (spec.2 : ℚ) * spec.1.low_level_hf298)).sum := by
  induction l with
  | nil => rfl
  | cons a t ih => simp [ih, mul_comm]

/-- C2: `ErrorCancelingReaction.calculate_target_thermo` returns, as a scalar
quantity in J/mol, exactly Σ(coefficient × benchmark.high_level_enthalpy)
− (Σ(coefficient × benchmark.low_level_enthalpy) − target.low_level_enthalpy),
both sums ranging over the entries of the reaction's species map, all
enthalpies taken in SI magnitude. -/
theorem C2_target_thermo (rxn : ErrorCancelingReaction) :
    calculate_target_thermo rxn =
      ⟨some ((rxn.species.map (fun spec => (spec.2 : ℚ) * spec.1.high_level_hf298)).sum
        - ((rxn.species.map (fun spec => (spec.2 : ℚ) * spec.1.low_level_hf298)).sum
          - rxn.target.low_level_hf298)), "J/mol"⟩ := by
  unfold calculate_target_thermo target_thermo_value
  rw [sum_map_high_comm, sum_map_low_comm]

/-- Witness for C2 at a concrete reaction: coefficients (2) applied to
enthalpies (high 7, low 3) against target low 5 give 2·7 − (2·3 − 5) = 13. -/
theorem C2_witness : calculate_target_thermo rxnConcrete = ⟨some 13, "J/mol"⟩ := by
  rw [C2_target_thermo rxnConcrete]
  norm_num [rxnConcrete, specBenchC2, specTargetCH]

/-! C8 — construction-time pruning of the benchmark set. -/

lemma elemCheck_eq_true_iff (labels allowed : List String) :
    elemCheck labels allowed = true ↔ ∀ l ∈ labels, l ∈ allowed := by
  induction labels with
  | nil => simp [elemCheck]
  | cons a t ih =>
    by_cases ha : a ∈ allowed
    · simp [elemCheck, ha, ih]
    · simp [elemCheck, ha]

lemma mem_pruneLoop (bench : List ErrorCancelingSpecies) (allowed : List String)
    (s : ErrorCancelingSpecies) :
    s ∈ pruneLoop bench allowed ↔
      s ∈ bench ∧ elemCheck (s.molecule.elementCount.map Prod.fst) allowed = true := by
  induction bench with
  | nil => simp [pruneLoop]
  | cons b t ih =>
    by_cases hb : elemCheck (b.molecule.elementCount.map Prod.fst) allowed = true
    · by_cases hsb : s = b
      · subst hsb; simp [pruneLoop, hb, ih]
      · simp [pruneLoop, hb, ih, hsb]
    · by_cases hsb : s = b
      · subst hsb; simp [pruneLoop, hb, ih]
      · simp [pruneLoop, hb, ih, hsb]

/-- C8: after `ErrorCancelingScheme` construction, a benchmark species whose
structure contains any element symbol not in the target's element set never
appears in `benchmark_set` (exclusion is silent — the constructor is total,
no error path exists), and every candidate species all of whose element
symbols lie in the target's element set is retained. -/
theorem C8_pruning (target : ErrorCancelingSpecies)
    (bench : List ErrorCancelingSpecies) (s : ErrorCancelingSpecies) :
    s ∈ (mkErrorCancelingScheme target bench).benchmark_set ↔
      s ∈ bench ∧ ∀ label ∈ s.molecule.elementCount.map Prod.fst,
        label ∈ target.molecule.elementCount.map Prod.fst := by
  unfold mkErrorCancelingScheme
  rw [mem_pruneLoop, elemCheck_eq_true_iff]

/-- Witness for C8: the silicon species is pruned from a CH target's
benchmark set while the CH-compatible species is retained. -/
theorem C8_witness :
    specBenchSi ∉ (mkErrorCancelingScheme specTargetCH [specBenchSi, specBenchC2]).benchmark_set
    ∧ specBenchC2 ∈ (mkErrorCancelingScheme specTargetCH [specBenchSi, specBenchC2]).benchmark_set :=
  ⟨fun h => absurd ((C8_pruning specTargetCH [specBenchSi, specBenchC2] specBenchSi).mp h).2
      (by decide),
   (C8_pruning specTargetCH [specBenchSi, specBenchC2] specBenchC2).mpr (by decide)⟩

/-! C10 — frame property of the search procedures, and C5 — the pyomo
failure path. -/

lemma find_state_eq (S : ErrorCancelingScheme) (backend : Backend)
    (oracle : MilpOracle) (subset : List Nat) :
    (find_error_canceling_reaction S backend oracle subset).2 = S := by
  unfold find_error_canceling_reaction
  cases oracle subset with
  | some sol => rfl
  | none => cases backend <;> rfl

lemma searchLoop_state_eq (backend : Backend) (oracle : MilpOracle) (n : Nat) :
    ∀ fuel S queue acc, (searchLoop backend oracle n fuel S queue acc).2 = S := by
  intro fuel
  induction fuel with
  | zero => intro S queue acc; rfl
  | succ f ih =>
    intro S queue acc
    simp only [searchLoop]
    by_cases hc : queue.length ≠ 0 ∧ acc.length < n
    · rw [if_pos hc]
      cases queue with
      | nil => rfl
      | cons subset rest =>
        dsimp only
        by_cases hs : subset.length = 0
        · rw [if_pos hs]; exact ih S rest acc
        · rw [if_neg hs]
          have hfind := find_state_eq S backend oracle subset
          cases hr : find_error_canceling_reaction S backend oracle subset with
          | mk r S' =>
            rw [hr] at hfind
            cases r with
            | bareNone => exact hfind
            | pairNone => rw [ih]; exact hfind
            | found reaction subset_indices => rw [ih]; exact hfind
    · rw [if_neg hc]

lemma enthalpy_state_eq (S : ErrorCancelingScheme) (backend : Backend)
    (oracle : MilpOracle) (n fuel : Nat) :
    (calculate_target_enthalpy S backend oracle n fuel).2 = S := by
  unfold calculate_target_enthalpy
  have h := searchLoop_state_eq backend oracle n fuel S
    [List.range S.benchmark_set.length] []
  cases hm : multiple_error_canceling_reaction_search S backend oracle n fuel with
  | mk r S' =>
    unfold multiple_error_canceling_reaction_search at hm
    rw [hm] at h
    cases r <;> simpa using h

/-- C10: after the caches are filled, `find_error_canceling_reaction`,
`multiple_error_canceling_reaction_search` and `calculate_target_enthalpy`
never modify the scheme's `target_constraint`, `constraint_matrix` or
`benchmark_set`: the threaded state comes back unchanged (those methods
contain no assignment to any scheme attribute). -/
theorem C10_frame (S : ErrorCancelingScheme) (backend : Backend)
    (oracle : MilpOracle) (subset : List Nat) (n fuel : Nat) :
    ((find_error_canceling_reaction S backend oracle subset).2.target_constraint
        = S.target_constraint
      ∧ (find_error_canceling_reaction S backend oracle subset).2.constraint_matrix
        = S.constraint_matrix
      ∧ (find_error_canceling_reaction S backend oracle subset).2.benchmark_set
        = S.benchmark_set)
    ∧ ((multiple_error_canceling_reaction_search S backend oracle n fuel).2.target_constraint
        = S.target_constraint
      ∧ (multiple_error_canceling_reaction_search S backend oracle n fuel).2.constraint_matrix
        = S.constraint_matrix
      ∧ (multiple_error_canceling_reaction_search S backend oracle n fuel).2.benchmark_set
        = S.benchmark_set)
    ∧ ((calculate_target_enthalpy S backend oracle n fuel).2.target_constraint
        = S.target_constraint
      ∧ (calculate_target_enthalpy S backend oracle n fuel).2.constraint_matrix
        = S.constraint_matrix
      ∧ (calculate_target_enthalpy S backend oracle n fuel).2.benchmark_set
        = S.benchmark_set) := by
  have h1 := find_state_eq S backend oracle subset
  have h2 := searchLoop_state_eq backend oracle n fuel S
    [List.range S.benchmark_set.length] []
  have h2' : (multiple_error_canceling_reaction_search S backend oracle n fuel).2 = S := h2
  have h3 := enthalpy_state_eq S backend oracle n fuel
  rw [h1, h2', h3]
  exact ⟨⟨rfl, rfl, rfl⟩, ⟨rfl, rfl, rfl⟩, ⟨rfl, rfl, rfl⟩⟩

/-- Witness for C10 at a concrete scheme, backend, oracle and subset. -/
theorem C10_witness :
    (find_error_canceling_reaction (mkErrorCancelingScheme specTargetCH [specBenchC2])
        .lpsolve (fun _ => none) [0]).2.benchmark_set
      = (mkErrorCancelingScheme specTargetCH [specBenchC2]).benchmark_set
    ∧ (calculate_target_enthalpy (mkErrorCancelingScheme specTargetCH [specBenchC2])
        .lpsolve (fun _ => none) 20 5).2.target_constraint
      = (mkErrorCancelingScheme specTargetCH [specBenchC2]).target_constraint :=
  ⟨(C10_frame (mkErrorCancelingScheme specTargetCH [specBenchC2]) .lpsolve
      (fun _ => none) [0] 20 5).1.2.2,
   (C10_frame (mkErrorCancelingScheme specTargetCH [specBenchC2]) .lpsolve
      (fun _ => none) [0] 20 5).2.2.1⟩

/-- C5 (the code violates the claim for the pyomo backend): with
`milp_software='pyomo'` and a solve failure, `find_error_canceling_reaction`
executes `return None` (isodesmic.py line 262) while its success path and the
lpsolve failure path return pairs; the caller's tuple unpacking
`reaction, subset_indices = self.find_error_canceling_reaction(...)`
(line 320) then raises a TypeError that aborts the whole search.  With
`'lpsolve'` the failure is `(None, None)` and the search recovers locally
and terminates with an empty reaction list. -/
theorem C5_pyomo_failure_aborts :
    (multiple_error_canceling_reaction_search
        (mkErrorCancelingScheme specTargetCH [specBenchC2]) .pyomo
        (fun _ => none) 20 5).1 = .typeError
    ∧ (multiple_error_canceling_reaction_search
        (mkErrorCancelingScheme specTargetCH [specBenchC2]) .lpsolve
        (fun _ => none) 20 5).1 = .ok [] := by
  decide

/-! C9 — pruning versus a target-only element, and the empty-benchmark
search; C4 — the no-reaction outcome of `calculate_target_enthalpy`. -/

lemma pruneLoop_eq_nil (bench : List ErrorCancelingSpecies) (allowed : List String)
    (h : ∀ s ∈ bench, elemCheck (s.molecule.elementCount.map Prod.fst) allowed = false) :
    pruneLoop bench allowed = [] := by
  induction bench with
  | nil => rfl
  | cons b t ih =>
    have hb := h b (List.mem_cons_self b t)
    unfold pruneLoop
    rw [hb]
    simp only [Bool.false_eq_true, if_false]
    exact ih (fun s hs => h s (List.mem_cons_of_mem b hs))

lemma search_on_empty_benchmark (S : ErrorCancelingScheme)
    (hS : S.benchmark_set = []) (backend : Backend) (oracle : MilpOracle)
    (n fuel : Nat) (hf : 2 ≤ fuel) :
    (multiple_error_canceling_reaction_search S backend oracle n fuel).1 = .ok [] := by
  obtain ⟨k, rfl⟩ : ∃ k, fuel = k + 2 := ⟨fuel - 2, by omega⟩
  unfold multiple_error_canceling_reaction_search
  rw [hS]
  cases n with
  | zero => simp [searchLoop]
  | succ w => simp [searchLoop]

/-- C9 (amended): the construction-time pruning empties the benchmark set
when every benchmark species contains an element symbol outside the target's
element set (a target element missing from all benchmarks does *not* by
itself empty the set — see the counterexample), and on an empty benchmark
set `multiple_error_canceling_reaction_search` returns the empty reaction
list without any error. -/
theorem C9_empty_benchmark (target : ErrorCancelingSpecies)
    (bench : List ErrorCancelingSpecies)
    (h : ∀ s ∈ bench, ¬ ∀ label ∈ s.molecule.elementCount.map Prod.fst,
      label ∈ target.molecule.elementCount.map Prod.fst)
    (backend : Backend) (oracle : MilpOracle) (n fuel : Nat) (hf : 2 ≤ fuel) :
    (mkErrorCancelingScheme target bench).benchmark_set = []
    ∧ (multiple_error_canceling_reaction_search (mkErrorCancelingScheme target bench)
        backend oracle n fuel).1 = .ok [] := by
  have hempty : (mkErrorCancelingScheme target bench).benchmark_set = [] := by
    unfold mkErrorCancelingScheme
    refine pruneLoop_eq_nil bench _ (fun s hs => ?_)
    have := h s hs
    rw [← elemCheck_eq_true_iff] at this
    exact Bool.eq_false_iff.mpr this
  exact ⟨hempty,
    search_on_empty_benchmark _ hempty backend oracle n fuel hf⟩

/-- Witness for C9 (amended): the silicon benchmark is incompatible with the
CH target, the pruned benchmark set is empty, and the search returns an empty
list. -/
theorem C9_witness :
    (mkErrorCancelingScheme specTargetCH [specBenchSi]).benchmark_set = []
    ∧ (multiple_error_canceling_reaction_search
        (mkErrorCancelingScheme specTargetCH [specBenchSi]) .lpsolve
        (fun _ => none) 20 2).1 = .ok [] :=
  C9_empty_benchmark specTargetCH [specBenchSi] (by decide) .lpsolve
    (fun _ => none) 20 2 (by decide)

/-- Counterexample for C9 as stated: the target `specTargetCSi` contains
silicon, which is absent from the only benchmark species `specBenchCC`, yet
the pruned benchmark set is *not* empty — pruning only requires the
benchmark's elements to lie inside the target's element set. -/
theorem C9_counterexample :
    "Si" ∈ specTargetCSi.molecule.elementCount.map Prod.fst
    ∧ (∀ s ∈ [specBenchCC], "Si" ∉ s.molecule.elementCount.map Prod.fst)
    ∧ (mkErrorCancelingScheme specTargetCSi [specBenchCC]).benchmark_set
        = [specBenchCC] := by
  decide

/-- C4: when the search yields zero reactions, `calculate_target_enthalpy`
returns `ScalarQuantity(np.median([]), 'J/mol')`; `np.median` of an empty
array is NaN (modelled `none`), a distinct non-numeric "no reaction found"
marker — never equal to any numeric result — and no exception is raised. -/
theorem C4_no_reaction_condition (S : ErrorCancelingScheme) (backend : Backend)
    (oracle : MilpOracle) (n fuel : Nat)
    (h : (multiple_error_canceling_reaction_search S backend oracle n fuel).1 = .ok []) :
    (calculate_target_enthalpy S backend oracle n fuel).1 = .ok ⟨none, "J/mol"⟩
    ∧ ∀ q : ℚ, (calculate_target_enthalpy S backend oracle n fuel).1
        ≠ .ok ⟨some q, "J/mol"⟩ := by
  cases hm : multiple_error_canceling_reaction_search S backend oracle n fuel with
  | mk r S' =>
    rw [hm] at h
    simp only at h
    subst h
    constructor
    · unfold calculate_target_enthalpy
      rw [hm]
      simp [npMedian]
    · intro q hq
      unfold calculate_target_enthalpy at hq
      rw [hm] at hq
      simp [npMedian] at hq

/-- Witness for C4: a scheme constructed with no benchmark species at all
finds zero reactions, and the returned quantity carries the NaN marker. -/
theorem C4_witness :
    (calculate_target_enthalpy (mkErrorCancelingScheme specTargetCH []) .lpsolve
      (fun _ => none) 20 2).1 = .ok ⟨none, "J/mol"⟩ :=
  (C4_no_reaction_condition (mkErrorCancelingScheme specTargetCH []) .lpsolve
    (fun _ => none) 20 2 (by decide)).1

/-! C6 — overflow failure of `SpeciesConstraints.enumerate`; C7 — the
ConstraintMap indexing discipline. -/

lemma lookupKey_eq_none_iff (m : List (String × Nat)) (k : String) :
    lookupKey m k = none ↔ k ∉ m.map Prod.fst := by
  induction m with
  | nil => simp [lookupKey]
  | cons p rest ih =>
    obtain ⟨a, b⟩ := p
    by_cases hp : a = k
    · subst hp
      simp [lookupKey]
    · simp [lookupKey, hp, ih, Ne.symm hp]

lemma lookupKey_mem_of_some (m : List (String × Nat)) (k : String) (v : Nat)
    (h : lookupKey m k = some v) : k ∈ m.map Prod.fst := by
  by_contra hk
  rw [← lookupKey_eq_none_iff] at hk
  rw [h] at hk
  exact Option.noConfusion hk

/-- Distinct labels accumulated in first-seen order: the key list of the
constraint map after a sequence of label queries. -/
def finalKeys (keys : List String) (labels : List String) : List String :=
  labels.foldl (fun ks l => if l ∈ ks then ks else ks ++ [l]) keys

lemma finalKeys_nil (keys : List String) : finalKeys keys [] = keys := rfl

lemma finalKeys_cons (keys : List String) (l : String) (rest : List String) :
    finalKeys keys (l :: rest)
      = finalKeys (if l ∈ keys then keys else keys ++ [l]) rest := rfl

lemma processItems_ok_keys (maxc : Nat) :
    ∀ (items : List (String × Nat)) (vec : List ℤ) (m : List (String × Nat))
      (res : List ℤ) (m' : List (String × Nat)),
    processItems maxc items vec m = (.ok res, m') →
    m'.map Prod.fst = finalKeys (m.map Prod.fst) (items.map Prod.fst)
    ∧ (m.length ≤ maxc → m'.length ≤ maxc) := by
  intro items
  induction items with
  | nil =>
    intro vec m res m' h
    simp only [processItems] at h
    have h2 : m' = m := (congrArg Prod.snd h).symm
    subst h2
    exact ⟨rfl, fun hl => hl⟩
  | cons item rest ih =>
    intro vec m res m' h
    obtain ⟨label, count⟩ := item
    simp only [processItems] at h
    cases hl : lookupKey m label with
    | some v =>
      have hp : cmapGet m label = (v, m) := by unfold cmapGet; rw [hl]
      rw [hp] at h
      by_cases hv : v < maxc
      · rw [if_pos hv] at h
        obtain ⟨hkeys, hlen⟩ := ih _ _ _ _ h
        refine ⟨?_, hlen⟩
        rw [hkeys, List.map_cons, finalKeys_cons,
          if_pos (lookupKey_mem_of_some m label v hl)]
      · rw [if_neg hv] at h
        exact absurd (congrArg Prod.fst h) (by simp)
    | none =>
      have hp : cmapGet m label = (m.length, m ++ [(label, m.length)]) := by
        unfold cmapGet; rw [hl]
      rw [hp] at h
      by_cases hv : m.length < maxc
      · rw [if_pos hv] at h
        obtain ⟨hkeys, hlen⟩ := ih _ _ _ _ h
        constructor
        · rw [hkeys, List.map_cons, finalKeys_cons,
            if_neg ((lookupKey_eq_none_iff m label).mp hl)]
          simp
        · intro _
          refine hlen ?_
          simpa using hv
      · rw [if_neg hv] at h
        exact absurd (congrArg Prod.fst h) (by simp)

/-- C6: `SpeciesConstraints` is configured with
`max_num_constraints = 3·|allowed_atom_types|² + 10`, and an `enumerate` call
fails (out-of-bounds assignment into the size-`max_num_constraints` vector,
fatal to that call) whenever the number of distinct constraint labels ever
discovered — previously mapped labels together with this molecule's labels —
would exceed `max_num_constraints`. -/
theorem C6_overflow (allowed_atom_types : List String) (cb cr : Bool)
    (sc : SpeciesConstraints) (mol : Molecule)
    (hlen : sc.constraint_map.length ≤ sc.max_num_constraints)
    (hover : sc.max_num_constraints <
      (finalKeys (sc.constraint_map.map Prod.fst)
        ((enumItems sc mol).map Prod.fst)).length) :
    (mkSpeciesConstraints allowed_atom_types cb cr).max_num_constraints
      = 3 * allowed_atom_types.length ^ 2 + 10
    ∧ (sc.enumerate mol).1 = .error () := by
  refine ⟨rfl, ?_⟩
  unfold SpeciesConstraints.enumerate
  cases hp : processItems sc.max_num_constraints (enumItems sc mol)
      (List.replicate sc.max_num_constraints 0) sc.constraint_map with
  | mk r m' =>
    cases r with
    | ok res =>
      exfalso
      obtain ⟨hkeys, hbound⟩ := processItems_ok_keys sc.max_num_constraints _ _ _ _ _ hp
      have h1 : m'.length ≤ sc.max_num_constraints := hbound hlen
      have h2 : m'.length = (finalKeys (sc.constraint_map.map Prod.fst)
          ((enumItems sc mol).map Prod.fst)).length := by
        rw [← hkeys, List.length_map]
      omega
    | error e => simp [hp]

/-- Molecule with eleven distinct element labels, enough to overflow the
ten-constraint budget of `mkSpeciesConstraints []`. -/
def molOverflowA : Molecule :=
  ⟨[("a", 1), ("b", 1), ("c", 1), ("d", 1), ("e", 1), ("f", 1), ("g", 1),
    ("h", 1), ("i", 1), ("j", 1), ("k", 1)], [], []⟩

/-- Witness for C6: with no allowed atom types the budget is ten, and a
molecule carrying eleven distinct labels makes `enumerate` fail. -/
theorem C6_witness :
    (mkSpeciesConstraints ["C"] true true).max_num_constraints
      = 3 * (["C"] : List String).length ^ 2 + 10
    ∧ ((mkSpeciesConstraints [] true true).enumerate molOverflowA).1 = .error () :=
  C6_overflow ["C"] true true (mkSpeciesConstraints [] true true) molOverflowA
    (by decide) (by decide)

instance : DecidableEq (Except Unit (List ℤ)) := fun a b =>
  match a, b with
  | .ok x, .ok y =>
    if h : x = y then .isTrue (by rw [h]) else .isFalse (fun hc => h (by cases hc; rfl))
  | .error x, .error y => .isTrue (by cases x; cases y; rfl)
  | .ok _, .error _ => .isFalse (fun hc => Except.noConfusion hc)
  | .error _, .ok _ => .isFalse (fun hc => Except.noConfusion hc)

lemma lookupKey_append_of_some (m l : List (String × Nat)) (k : String) (v : Nat)
    (h : lookupKey m k = some v) : lookupKey (m ++ l) k = some v := by
  induction m with
  | nil => exact absurd h (by simp [lookupKey])
  | cons p rest ih =>
    obtain ⟨a, b⟩ := p
    by_cases hp : a = k
    · subst hp
      simp only [lookupKey, if_pos rfl] at h ⊢
      exact h
    · simp only [lookupKey, if_neg hp] at h ⊢
      exact ih h

/-- C7 (amended): every newly queried label receives the index equal to the
number of labels stored before it and is appended (first-seen order, no
gaps); a label already stored keeps its index under the query that stored it
and under every later query (indices are never reused or reassigned); and
the map size stays within `max_num_constraints` across every *successful*
`enumerate` call.  The unqualified size bound of the claim fails: a failing
`enumerate` call has already grown the map one past the maximum when the
vector access raises — see the counterexample. -/
theorem C7_constraint_map :
    (∀ (m : List (String × Nat)) (k : String), lookupKey m k = none →
      cmapGet m k = (m.length, m ++ [(k, m.length)]))
    ∧ (∀ (m : List (String × Nat)) (k : String) (i : Nat), lookupKey m k = some i →
      cmapGet m k = (i, m))
    ∧ (∀ (m : List (String × Nat)) (k k' : String) (i : Nat),
      lookupKey m k = some i → lookupKey (cmapGet m k').2 k = some i)
    ∧ (∀ (sc : SpeciesConstraints) (mol : Molecule) (vec : List ℤ)
        (sc' : SpeciesConstraints), sc.enumerate mol = (.ok vec, sc') →
      sc.constraint_map.length ≤ sc.max_num_constraints →
      sc'.constraint_map.length ≤ sc.max_num_constraints) := by
  refine ⟨?_, ?_, ?_, ?_⟩
  · intro m k h
    unfold cmapGet
    rw [h]
  · intro m k i h
    unfold cmapGet
    rw [h]
  · intro m k k' i h
    unfold cmapGet
    cases h' : lookupKey m k' with
    | some v => exact h
    | none => exact lookupKey_append_of_some m _ k i h
  · intro sc mol vec sc' h hlen
    unfold SpeciesConstraints.enumerate at h
    cases hp : processItems sc.max_num_constraints (enumItems sc mol)
        (List.replicate sc.max_num_constraints 0) sc.constraint_map with
    | mk r m' =>
      rw [hp] at h
      simp only at h
      have hr : r = .ok vec := congrArg Prod.fst h
      subst hr
      have hm : sc'.constraint_map = m' := by
        have := congrArg Prod.snd h
        simp only at this
        rw [← this]
      rw [hm]
      exact (processItems_ok_keys sc.max_num_constraints _ _ _ _ _ hp).2 hlen

/-- Witness for C7: a fresh label gets index 0 and is appended; a stored
label keeps index and map; a stored binding survives a fresh query for a
different label; a successful `enumerate` keeps the map within budget. -/
theorem C7_witness :
    cmapGet [] "C" = (0, [("C", 0)])
    ∧ cmapGet [("C", 0), ("H", 1)] "H" = (1, [("C", 0), ("H", 1)])
    ∧ lookupKey (cmapGet [("C", 0)] "H").2 "C" = some 0
    ∧ ((mkSpeciesConstraints ["C", "H"] true true).enumerate molCH4).2.constraint_map.length
        ≤ (mkSpeciesConstraints ["C", "H"] true true).max_num_constraints :=
  ⟨C7_constraint_map.1 [] "C" (by decide),
   C7_constraint_map.2.1 [("C", 0), ("H", 1)] "H" 1 (by decide),
   C7_constraint_map.2.2.1 [("C", 0)] "C" "H" 0 (by decide),
   C7_constraint_map.2.2.2 (mkSpeciesConstraints ["C", "H"] true true) molCH4
     (((mkSpeciesConstraints ["C", "H"] true true).enumerate molCH4).1.toOption.getD [])
     ((mkSpeciesConstraints ["C", "H"] true true).enumerate molCH4).2
     (by decide) (by decide)⟩

/-- Molecule with eleven distinct element labels used to overflow the
constraint map in the C7 counterexample. -/
def molOverflowB : Molecule :=
  ⟨[("p", 1), ("q", 1), ("r", 1), ("s", 1), ("t", 1), ("u", 1), ("v", 1),
    ("w", 1), ("x", 1), ("y", 1), ("z", 1)], [], []⟩

/-- Counterexample for C7 as stated: after the failing `enumerate` call the
constraint map holds eleven labels, strictly more than the configured
maximum of ten — the overflowing label is inserted into the map before the
out-of-bounds vector access raises. -/
theorem C7_counterexample :
    (mkSpeciesConstraints [] true true).max_num_constraints
      < ((mkSpeciesConstraints [] true true).enumerate molOverflowB).2.constraint_map.length
    ∧ ((mkSpeciesConstraints [] true true).enumerate molOverflowB).1 = .error () := by
  decide

/-! Generic list and dict lemmas supporting the reaction-assembly claims. -/

lemma getD_nonneg_of_mem (sol : List ℤ) (h : ∀ x ∈ sol, 0 ≤ x) (i : Nat) :
    0 ≤ sol.getD i 0 := by
  induction sol generalizing i with
  | nil => simp [List.getD]
  | cons a t ih =>
    cases i with
    | zero => exact h a (List.mem_cons_self a t)
    | succ i' => exact ih (fun x hx => h x (List.mem_cons_of_mem a hx)) i'

lemma getD_le_of_mem (sol : List ℤ) (c : ℤ) (hc : 0 ≤ c) (h : ∀ x ∈ sol, x ≤ c)
    (i : Nat) : sol.getD i 0 ≤ c := by
  induction sol generalizing i with
  | nil => simpa [List.getD] using hc
  | cons a t ih =>
    cases i with
    | zero => exact h a (List.mem_cons_self a t)
    | succ i' => exact ih (fun x hx => h x (List.mem_cons_of_mem a hx)) i'

lemma map_getD_range {α : Type} (l : List α) (d : α) :
    (List.range l.length).map (fun i => l.getD i d) = l := by
  induction l with
  | nil => rfl
  | cons a t ih =>
    rw [List.length_cons, List.range_succ_eq_map, List.map_cons, List.map_map]
    refine congrArg (a :: ·) ?_
    have hcomp : ((fun i => (a :: t).getD i d) ∘ Nat.succ) = fun i => t.getD i d := rfl
    rw [hcomp, ih]

lemma range_add_append (a b : Nat) :
    List.range (a + b) = List.range a ++ (List.range b).map (fun k => a + k) := by
  induction b with
  | zero => simp
  | succ b' ih =>
    rw [← Nat.add_assoc, List.range_succ, ih, List.range_succ, List.map_append]
    simp

lemma filterMap_congr_mem {α β : Type} (l : List α) (f g : α → Option β)
    (h : ∀ a ∈ l, f a = g a) : l.filterMap f = l.filterMap g := by
  induction l with
  | nil => rfl
  | cons a t ih =>
    rw [List.filterMap_cons, List.filterMap_cons,
      h a (List.mem_cons_self a t), ih (fun x hx => h x (List.mem_cons_of_mem a hx))]

lemma reduceOption_map_eq_filterMap {α β : Type} (l : List α) (f : α → Option β) :
    (l.map f).reduceOption = l.filterMap f := by
  induction l with
  | nil => rfl
  | cons a t ih =>
    cases h : f a <;> simp [List.filterMap_cons, h, ih]

lemma map_filterMap_comp {α β γ : Type} (l : List α) (F : α → Option β) (g : β → γ) :
    (l.filterMap F).map g = l.filterMap (fun a => (F a).map g) := by
  induction l with
  | nil => rfl
  | cons a t ih =>
    cases h : F a <;> simp [List.filterMap_cons, h, ih]

lemma filterMap_map_comp {α β γ : Type} (l : List α) (g : α → β) (F : β → Option γ) :
    (l.map g).filterMap F = l.filterMap (fun a => F (g a)) := by
  induction l with
  | nil => rfl
  | cons a t ih =>
    cases h : F (g a) <;> simp [List.filterMap_cons, h, ih]

lemma filterMap_guard_sublist {α β : Type} (l : List α) (F : α → Option β)
    (g : α → β) (hF : ∀ a, F a = none ∨ F a = some (g a)) :
    List.Sublist (l.filterMap F) (l.map g) := by
  induction l with
  | nil => simp
  | cons a t ih =>
    rcases hF a with h | h
    · rw [List.filterMap_cons, h, List.map_cons]
      exact ih.cons (g a)
    · rw [List.filterMap_cons, h, List.map_cons]
      exact ih.cons₂ (g a)

lemma sum_map_filterMap_guard {α β : Type} (l : List α) (F : α → Option β)
    (f : β → ℤ) :
    ((l.filterMap F).map f).sum = (l.map (fun a => ((F a).map f).getD 0)).sum := by
  induction l with
  | nil => rfl
  | cons a t ih =>
    cases h : F a <;> simp [List.filterMap_cons, h, ih]

lemma sum_map_neg_int {α : Type} (l : List α) (f : α → ℤ) :
    (l.map (fun a => -f a)).sum = -(l.map f).sum := by
  induction l with
  | nil => simp
  | cons a t ih => simp [ih]; ring

lemma dictUpdate_of_fresh (l : List (ErrorCancelingSpecies × ℤ))
    (k : ErrorCancelingSpecies) (v : ℤ) (h : ∀ p ∈ l, p.1 ≠ k) :
    dictUpdate l k v = l ++ [(k, v)] := by
  unfold dictUpdate
  rw [if_neg]
  simp only [List.any_eq_true, not_exists, not_and]
  intro p hp
  simp [h p hp]

lemma mem_dictUpdate (l : List (ErrorCancelingSpecies × ℤ))
    (k : ErrorCancelingSpecies) (v : ℤ) (p : ErrorCancelingSpecies × ℤ)
    (h : p ∈ dictUpdate l k v) : p ∈ l ∨ p.2 = v := by
  unfold dictUpdate at h
  by_cases ha : l.any (fun q => q.1 = k) = true
  · rw [if_pos ha] at h
    obtain ⟨q, hq, hpq⟩ := List.mem_map.mp h
    by_cases hqk : q.1 = k
    · rw [if_pos hqk] at hpq
      right; rw [← hpq]
    · rw [if_neg hqk] at hpq
      left; rw [← hpq]; exact hq
  · rw [if_neg ha] at h
    rcases List.mem_append.mp h with h' | h'
    · left; exact h'
    · right
      have : p = (k, v) := by simpa using h'
      rw [this]

lemma applyUpdates_fresh :
    ∀ (ins : List (Option (ErrorCancelingSpecies × ℤ)))
      (acc : List (ErrorCancelingSpecies × ℤ)),
    (ins.reduceOption.map Prod.fst).Nodup →
    (∀ k ∈ ins.reduceOption.map Prod.fst, ∀ p ∈ acc, p.1 ≠ k) →
    applyUpdates acc ins = acc ++ ins.reduceOption := by
  intro ins
  induction ins with
  | nil =>
    intro acc _ _
    simp [applyUpdates]
  | cons o rest ih =>
    intro acc hnd hfresh
    cases o with
    | none =>
      rw [show applyUpdates acc (none :: rest) = applyUpdates acc rest from rfl,
        List.reduceOption_cons_of_none]
      exact ih acc (by simpa using hnd) (by simpa using hfresh)
    | some q =>
      obtain ⟨k, v⟩ := q
      rw [show applyUpdates acc (some (k, v) :: rest)
          = applyUpdates (dictUpdate acc k v) rest from rfl,
        List.reduceOption_cons_of_some]
      rw [List.reduceOption_cons_of_some, List.map_cons] at hnd hfresh
      have hk : ∀ p ∈ acc, p.1 ≠ k := fun p hp =>
        hfresh k (List.mem_cons_self _ _) p hp
      have hknotin : k ∉ rest.reduceOption.map Prod.fst :=
        (List.nodup_cons.mp hnd).1
      rw [dictUpdate_of_fresh acc k v hk]
      rw [ih (acc ++ [(k, v)]) (List.nodup_cons.mp hnd).2 ?_]
      · rw [List.append_assoc]
        rfl
      · intro k' hk' p hp
        rcases List.mem_append.mp hp with h' | h'
        · exact hfresh k' (List.mem_cons_of_mem _ hk') p h'
        · have : p = (k, v) := by simpa using h'
          rw [this]
          intro hke
          apply hknotin
          rw [← hke] at hk'
          exact hk'

lemma mem_applyUpdates :
    ∀ (ins : List (Option (ErrorCancelingSpecies × ℤ)))
      (acc : List (ErrorCancelingSpecies × ℤ)) (p : ErrorCancelingSpecies × ℤ),
    p ∈ applyUpdates acc ins →
    p ∈ acc ∨ ∃ q, some q ∈ ins ∧ q.2 = p.2 := by
  intro ins
  induction ins with
  | nil =>
    intro acc p hp
    left
    simpa [applyUpdates] using hp
  | cons o rest ih =>
    intro acc p hp
    cases o with
    | none =>
      rcases ih acc p hp with h | ⟨q, hq, hv⟩
      · left; exact h
      · right; exact ⟨q, List.mem_cons_of_mem _ hq, hv⟩
    | some q0 =>
      obtain ⟨k, v⟩ := q0
      rcases ih (dictUpdate acc k v) p hp with h | ⟨q, hq, hv⟩
      · rcases mem_dictUpdate acc k v p h with h' | h'
        · left; exact h'
        · right; exact ⟨(k, v), List.mem_cons_self _ _, h'.symm⟩
      · right; exact ⟨q, List.mem_cons_of_mem _ hq, hv⟩

lemma map_ite_fst_noop (l : List (ErrorCancelingSpecies × ℤ))
    (k : ErrorCancelingSpecies) (v : ℤ) (h : ∀ q ∈ l, q.1 ≠ k) :
    l.map (fun q => if q.1 = k then (k, v) else q) = l := by
  induction l with
  | nil => rfl
  | cons q t ih =>
    rw [List.map_cons, if_neg (h q (List.mem_cons_self q t)),
      ih (fun x hx => h x (List.mem_cons_of_mem q hx))]

lemma dictUpdate_cons_ne (p : ErrorCancelingSpecies × ℤ)
    (l : List (ErrorCancelingSpecies × ℤ)) (k : ErrorCancelingSpecies) (v : ℤ)
    (h : p.1 ≠ k) : dictUpdate (p :: l) k v = p :: dictUpdate l k v := by
  unfold dictUpdate
  rw [show ((p :: l).any fun q => q.1 = k) = (l.any fun q => q.1 = k) by
    simp [List.any_cons, h]]
  by_cases ha : l.any (fun q => q.1 = k) = true
  · rw [if_pos ha, if_pos ha, List.map_cons, if_neg h]
  · rw [if_neg ha, if_neg ha, List.cons_append]

lemma keys_nodup_of_cons {p : ErrorCancelingSpecies × ℤ}
    {l : List (ErrorCancelingSpecies × ℤ)}
    (h : ((p :: l).map Prod.fst).Nodup) :
    p.1 ∉ l.map Prod.fst ∧ (l.map Prod.fst).Nodup := by
  rw [List.map_cons, List.nodup_cons] at h
  exact h

lemma sumAbs_dictUpdate (l : List (ErrorCancelingSpecies × ℤ))
    (k : ErrorCancelingSpecies) (v : ℤ) (h : (l.map Prod.fst).Nodup) :
    ((dictUpdate l k v).map (fun p => |p.2|)).sum
      ≤ (l.map (fun p => |p.2|)).sum + |v| := by
  induction l with
  | nil =>
    simp [dictUpdate]
  | cons p t ih =>
    obtain ⟨hp1, hp2⟩ := keys_nodup_of_cons h
    by_cases hpk : p.1 = k
    · have hany : ((p :: t).any fun q => q.1 = k) = true := by
        simp [List.any_cons, hpk]
      unfold dictUpdate
      rw [if_pos hany, List.map_cons, if_pos hpk]
      have hnot : ∀ q ∈ t, q.1 ≠ k := by
        intro q hq hqk
        apply hp1
        rw [hpk, ← hqk]
        exact List.mem_map_of_mem Prod.fst hq
      rw [map_ite_fst_noop t k v hnot]
      have habs : 0 ≤ |p.2| := abs_nonneg p.2
      simp only [List.map_cons, List.sum_cons]
      linarith
    · rw [dictUpdate_cons_ne p t k v hpk]
      simp only [List.map_cons, List.sum_cons]
      have := ih hp2
      linarith

lemma keys_dictUpdate_nodup (l : List (ErrorCancelingSpecies × ℤ))
    (k : ErrorCancelingSpecies) (v : ℤ) (h : (l.map Prod.fst).Nodup) :
    ((dictUpdate l k v).map Prod.fst).Nodup := by
  unfold dictUpdate
  by_cases ha : l.any (fun q => q.1 = k) = true
  · rw [if_pos ha]
    have : (l.map (fun q => if q.1 = k then (k, v) else q)).map Prod.fst
        = l.map Prod.fst := by
      rw [List.map_map]
      refine List.map_congr_left ?_
      intro q _
      by_cases hq : q.1 = k
      · simp [hq]
      · simp [hq]
    rw [this]
    exact h
  · rw [if_neg ha, List.map_append]
    have hk : k ∉ l.map Prod.fst := by
      intro hkmem
      obtain ⟨p, hp, hpk⟩ := List.mem_map.mp hkmem
      exact ha (List.any_eq_true.mpr ⟨p, hp, by simp [hpk]⟩)
    rw [List.nodup_append]
    refine ⟨h, by simp, ?_⟩
    intro x hx hx'
    have hxk : x = k := by simpa using hx'
    exact hk (hxk ▸ hx)

/-- Absolute value carried by one optional dict insertion. -/
def insAbs : Option (ErrorCancelingSpecies × ℤ) → ℤ
  | none => 0
  | some q => |q.2|

lemma sumAbs_applyUpdates :
    ∀ (ins : List (Option (ErrorCancelingSpecies × ℤ)))
      (acc : List (ErrorCancelingSpecies × ℤ)),
    (acc.map Prod.fst).Nodup →
    ((applyUpdates acc ins).map (fun p => |p.2|)).sum
      ≤ (acc.map (fun p => |p.2|)).sum + (ins.map insAbs).sum := by
  intro ins
  induction ins with
  | nil =>
    intro acc h
    simp [applyUpdates]
  | cons o rest ih =>
    intro acc h
    cases o with
    | none =>
      have := ih acc h
      simp only [List.map_cons, List.sum_cons, insAbs]
      rw [show applyUpdates acc (none :: rest) = applyUpdates acc rest from rfl]
      linarith
    | some q =>
      obtain ⟨k, v⟩ := q
      have h1 := ih (dictUpdate acc k v) (keys_dictUpdate_nodup acc k v h)
      have h2 := sumAbs_dictUpdate acc k v h
      rw [show applyUpdates acc (some (k, v) :: rest)
          = applyUpdates (dictUpdate acc k v) rest from rfl]
      simp only [List.map_cons, List.sum_cons, insAbs]
      linarith

lemma solInsertion_lt (S : ErrorCancelingScheme) (subset : List Nat) (sol : List ℤ)
    (k : Nat) (hk : k < subset.length) :
    solInsertion S subset sol k =
      if 0 < sol.getD k 0 then some (speciesAt S subset k, -(sol.getD k 0))
      else none := by
  simp [solInsertion, hk]

lemma solInsertion_ge (S : ErrorCancelingScheme) (subset : List Nat) (sol : List ℤ)
    (k : Nat) (hk : k < subset.length) :
    solInsertion S subset sol (subset.length + k) =
      if 0 < sol.getD (subset.length + k) 0 then
        some (speciesAt S subset k, sol.getD (subset.length + k) 0)
      else none := by
  have h1 : ¬(subset.length + k < subset.length) := by omega
  have h2 : (subset.length + k) % subset.length = k := by
    rw [Nat.add_mod_left]
    exact Nat.mod_eq_of_lt hk
  simp [solInsertion, h1, h2]

/-- Reactant-half dict insertion for subset position `k` (coefficient `-v`). -/
def halfInsertionR (S : ErrorCancelingScheme) (subset : List Nat) (sol : List ℤ)
    (k : Nat) : Option (ErrorCancelingSpecies × ℤ) :=
  if 0 < sol.getD k 0 then some (speciesAt S subset k, -(sol.getD k 0)) else none

/-- Product-half dict insertion for subset position `k` (coefficient `+v`). -/
def halfInsertionP (S : ErrorCancelingScheme) (subset : List Nat) (sol : List ℤ)
    (k : Nat) : Option (ErrorCancelingSpecies × ℤ) :=
  if 0 < sol.getD (subset.length + k) 0 then
    some (speciesAt S subset k, sol.getD (subset.length + k) 0)
  else none

lemma species_split (S : ErrorCancelingScheme) (subset : List Nat) (sol : List ℤ)
    (hlen : sol.length = 2 * subset.length) :
    ((List.range sol.length).map (solInsertion S subset sol)).reduceOption
      = (List.range subset.length).filterMap (halfInsertionR S subset sol)
        ++ (List.range subset.length).filterMap (halfInsertionP S subset sol) := by
  rw [reduceOption_map_eq_filterMap, hlen, two_mul, range_add_append,
    List.filterMap_append, filterMap_map_comp]
  refine congrArg₂ (· ++ ·) ?_ ?_
  · refine filterMap_congr_mem _ _ _ (fun k hk => ?_)
    rw [solInsertion_lt S subset sol k (List.mem_range.mp hk)]
    rfl
  · refine filterMap_congr_mem _ _ _ (fun k hk => ?_)
    rw [solInsertion_ge S subset sol k (List.mem_range.mp hk)]
    rfl

lemma keys_halfR (S : ErrorCancelingScheme) (subset : List Nat) (sol : List ℤ) :
    ((List.range subset.length).filterMap (halfInsertionR S subset sol)).map Prod.fst
      = (List.range subset.length).filterMap
        (fun k => if 0 < sol.getD k 0 then some (speciesAt S subset k) else none) := by
  rw [map_filterMap_comp]
  refine filterMap_congr_mem _ _ _ (fun k _ => ?_)
  by_cases h : 0 < sol.getD k 0 <;> simp [halfInsertionR, h]

lemma keys_halfP (S : ErrorCancelingScheme) (subset : List Nat) (sol : List ℤ) :
    ((List.range subset.length).filterMap (halfInsertionP S subset sol)).map Prod.fst
      = (List.range subset.length).filterMap
        (fun k => if 0 < sol.getD (subset.length + k) 0 then
          some (speciesAt S subset k) else none) := by
  rw [map_filterMap_comp]
  refine filterMap_congr_mem _ _ _ (fun k _ => ?_)
  by_cases h : 0 < sol.getD (subset.length + k) 0 <;> simp [halfInsertionP, h]

lemma spmap_eq (S : ErrorCancelingScheme) (subset : List Nat) :
    (List.range subset.length).map (fun k => speciesAt S subset k)
      = subset.map (fun i => S.benchmark_set.getD i default) := by
  have hcomp : (fun k => speciesAt S subset k)
      = (fun i => S.benchmark_set.getD i default) ∘ (fun k => subset.getD k 0) := rfl
  rw [hcomp, ← List.map_map, map_getD_range]

lemma nodup_guard_keys (S : ErrorCancelingScheme) (subset : List Nat)
    (hnodup : (subset.map (fun i => S.benchmark_set.getD i default)).Nodup)
    (c : Nat → Prop) [DecidablePred c] :
    ((List.range subset.length).filterMap
      (fun k => if c k then some (speciesAt S subset k) else none)).Nodup := by
  refine List.Nodup.sublist
    (filterMap_guard_sublist _ _ (fun k => speciesAt S subset k) ?_) ?_
  · intro k
    by_cases h : c k
    · right; rw [if_pos h]
    · left; rw [if_neg h]
  · rw [spmap_eq]
    exact hnodup

lemma mem_guard_keys (S : ErrorCancelingScheme) (subset : List Nat)
    (c : Nat → Prop) [DecidablePred c] (x : ErrorCancelingSpecies)
    (hx : x ∈ (List.range subset.length).filterMap
      (fun k => if c k then some (speciesAt S subset k) else none)) :
    ∃ k, k < subset.length ∧ c k ∧ x = speciesAt S subset k := by
  obtain ⟨k, hk, he⟩ := List.mem_filterMap.mp hx
  by_cases h : c k
  · rw [if_pos h] at he
    exact ⟨k, List.mem_range.mp hk, h, (Option.some_injective _ he).symm⟩
  · rw [if_neg h] at he
    exact absurd he (Option.noConfusion)

/-- C1 (amended): for every reaction assembled by
`find_error_canceling_reaction` from a solver solution that satisfies the
installed balance equalities (common to both backends) with non-negative
entries, and for every retained constraint column `j`, the sum over the
reaction's species map of coefficient × species constraint count at `j`
equals the target's count at `j` — *provided* no subset position receives a
strictly positive value in both the reactant and the product half (and the
subset's species are pairwise distinct, which models Python's object-identity
dict keys).  The unqualified claim, including the overlap case it singles
out, is refuted by the counterexample: the dict `update` overwrites the
reactant-half coefficient. -/
theorem C1_balance (S : ErrorCancelingScheme) (subset : List Nat) (sol : List ℤ)
    (cnt : ErrorCancelingSpecies → Nat → ℤ)
    (hlen : sol.length = 2 * subset.length)
    (hnn : ∀ x ∈ sol, 0 ≤ x)
    (hnodup : (subset.map (fun i => S.benchmark_set.getD i default)).Nodup)
    (hcnt : ∀ k, k < subset.length → ∀ j, j < S.target_constraint.length →
      cnt (speciesAt S subset k) j = takenEntry S subset k j)
    (hbal : milpBalance S subset sol)
    (hnov : ∀ k, k < subset.length →
      ¬(0 < sol.getD k 0 ∧ 0 < sol.getD (subset.length + k) 0))
    (j : Nat) (hj : j < S.target_constraint.length) :
    (((findAssemble S subset sol).1.species).map (fun p => p.2 * cnt p.1 j)).sum
      = S.target_constraint.getD j 0 := by
  have hvnn : ∀ i, 0 ≤ sol.getD i 0 := getD_nonneg_of_mem sol hnn
  have hspnd : ((List.range subset.length).map
      (fun k => speciesAt S subset k)).Nodup := by
    rw [spmap_eq]
    exact hnodup
  have hndR : (((List.range subset.length).filterMap
      (halfInsertionR S subset sol)).map Prod.fst).Nodup := by
    rw [keys_halfR]
    exact nodup_guard_keys S subset hnodup _
  have hndP : (((List.range subset.length).filterMap
      (halfInsertionP S subset sol)).map Prod.fst).Nodup := by
    rw [keys_halfP]
    exact nodup_guard_keys S subset hnodup _
  have hdisj : List.Disjoint
      (((List.range subset.length).filterMap (halfInsertionR S subset sol)).map Prod.fst)
      (((List.range subset.length).filterMap (halfInsertionP S subset sol)).map Prod.fst) := by
    intro x hxR hxP
    rw [keys_halfR] at hxR
    rw [keys_halfP] at hxP
    obtain ⟨k1, hk1, hc1, hx1⟩ := mem_guard_keys S subset _ x hxR
    obtain ⟨k2, hk2, hc2, hx2⟩ := mem_guard_keys S subset _ x hxP
    have hinj := List.inj_on_of_nodup_map hspnd
    have hk12 : k1 = k2 :=
      hinj (List.mem_range.mpr hk1) (List.mem_range.mpr hk2)
        (by rw [← hx1, ← hx2])
    exact hnov k2 hk2 ⟨hk12 ▸ hc1, hc2⟩
  have hnd : ((((List.range sol.length).map
      (solInsertion S subset sol)).reduceOption).map Prod.fst).Nodup := by
    rw [species_split S subset sol hlen, List.map_append, List.nodup_append]
    exact ⟨hndR, hndP, hdisj⟩
  have hspecies : (findAssemble S subset sol).1.species
      = (List.range subset.length).filterMap (halfInsertionR S subset sol)
        ++ (List.range subset.length).filterMap (halfInsertionP S subset sol) := by
    show applyUpdates [] ((List.range sol.length).map (solInsertion S subset sol)) = _
    rw [applyUpdates_fresh _ [] hnd (fun k _ p hp => absurd hp (List.not_mem_nil p)),
      List.nil_append, species_split S subset sol hlen]
  rw [hspecies, List.map_append, List.sum_append,
    sum_map_filterMap_guard, sum_map_filterMap_guard]
  have hterm1 : ∀ k ∈ List.range subset.length,
      ((halfInsertionR S subset sol k).map (fun p => p.2 * cnt p.1 j)).getD 0
        = -(sol.getD k 0 * takenEntry S subset k j) := by
    intro k hk
    have hk' := List.mem_range.mp hk
    by_cases h : 0 < sol.getD k 0
    · have he : halfInsertionR S subset sol k
          = some (speciesAt S subset k, -(sol.getD k 0)) := by
        unfold halfInsertionR
        rw [if_pos h]
      rw [he]
      simp only [Option.map_some', Option.getD_some]
      rw [hcnt k hk' j hj]
      ring
    · have he : halfInsertionR S subset sol k = none := by
        unfold halfInsertionR
        rw [if_neg h]
      have h0 : sol.getD k 0 = 0 := le_antisymm (not_lt.mp h) (hvnn k)
      rw [he, h0]
      simp
  have hterm2 : ∀ k ∈ List.range subset.length,
      ((halfInsertionP S subset sol k).map (fun p => p.2 * cnt p.1 j)).getD 0
        = sol.getD (subset.length + k) 0 * takenEntry S subset k j := by
    intro k hk
    have hk' := List.mem_range.mp hk
    by_cases h : 0 < sol.getD (subset.length + k) 0
    · have he : halfInsertionP S subset sol k
          = some (speciesAt S subset k, sol.getD (subset.length + k) 0) := by
        unfold halfInsertionP
        rw [if_pos h]
      rw [he]
      simp only [Option.map_some', Option.getD_some]
      rw [hcnt k hk' j hj]
    · have he : halfInsertionP S subset sol k = none := by
        unfold halfInsertionP
        rw [if_neg h]
      have h0 : sol.getD (subset.length + k) 0 = 0 :=
        le_antisymm (not_lt.mp h) (hvnn (subset.length + k))
      rw [he, h0]
      simp
  rw [List.map_congr_left hterm1, List.map_congr_left hterm2, sum_map_neg_int]
  have hb := hbal j hj
  linarith

instance (S : ErrorCancelingScheme) (subset : List Nat) (sol : List ℤ) :
    Decidable (milpBalance S subset sol) :=
  inferInstanceAs (Decidable (∀ j, j < S.target_constraint.length →
    ((List.range subset.length).map
        (fun k => sol.getD k 0 * takenEntry S subset k j)).sum
      - ((List.range subset.length).map
        (fun k => sol.getD (subset.length + k) 0 * takenEntry S subset k j)).sum
    = -(S.target_constraint.getD j 0)))

instance (S : ErrorCancelingScheme) (subset : List Nat) (sol : List ℤ) :
    Decidable (lpsolveFeasible S subset sol) :=
  inferInstanceAs (Decidable (sol.length = 2 * subset.length
    ∧ (∀ x ∈ sol, 0 ≤ x) ∧ (∀ x ∈ sol, x ≤ 4) ∧ sol.sum ≤ 20
    ∧ milpBalance S subset sol))

instance (S : ErrorCancelingScheme) (subset : List Nat) (sol : List ℤ) :
    Decidable (pyomoFeasible S subset sol) :=
  inferInstanceAs (Decidable (sol.length = 2 * subset.length
    ∧ (∀ x ∈ sol, 0 ≤ x) ∧ milpBalance S subset sol))

/-- Initialized scheme with one benchmark species whose single retained
constraint count is 2, target count 2. -/
def schemeOne : ErrorCancelingScheme :=
  { target := specTargetCH
    constraints := mkSpeciesConstraints ["C", "H"] true true
    benchmark_set := [specBenchC2]
    target_constraint := [2]
    constraint_matrix := [[2]] }

/-- Constraint-count function matching `schemeOne`'s matrix. -/
def cntTwo : ErrorCancelingSpecies → Nat → ℤ := fun _ _ => 2

/-- Witness for C1 (amended): the solver places the single benchmark species
on the product half with coefficient 1 and the assembled reaction balances
the one retained column. -/
theorem C1_witness :
    (((findAssemble schemeOne [0] [0, 1]).1.species).map
      (fun p => p.2 * cntTwo p.1 0)).sum = schemeOne.target_constraint.getD 0 0 :=
  C1_balance schemeOne [0] [0, 1] cntTwo (by decide) (by decide) (by decide)
    (by decide) (by decide) (by decide) 0 (by decide)

/-- Initialized scheme with one benchmark species whose single retained
constraint count is 1, target count 1. -/
def schemeUnit : ErrorCancelingScheme :=
  { target := specTargetCH
    constraints := mkSpeciesConstraints ["C", "H"] true true
    benchmark_set := [specBenchC2]
    target_constraint := [1]
    constraint_matrix := [[1]] }

/-- Constraint-count function matching `schemeUnit`'s matrix. -/
def cntOne : ErrorCancelingSpecies → Nat → ℤ := fun _ _ => 1

/-- Counterexample for C1 as stated: the solution `[1, 2]` satisfies every
constraint the lpsolve formulation installs (balance `1·1 − 2·1 = −1`,
non-negativity, upper bounds, total ≤ 20) and assigns strictly positive
values to the same species in both halves; the assembled species map is
`[(specBenchC2, 2)]` because the product-half `dict.update` overwrote the
reactant-half coefficient `−1`, so the balance sum is 2 ≠ 1 = target count. -/
theorem C1_counterexample :
    lpsolveFeasible schemeUnit [0] [1, 2]
    ∧ 0 < ([1, 2] : List ℤ).getD 0 0
    ∧ 0 < ([1, 2] : List ℤ).getD 1 0
    ∧ cntOne (speciesAt schemeUnit [0] 0) 0 = takenEntry schemeUnit [0] 0 0
    ∧ (((findAssemble schemeUnit [0] [1, 2]).1.species).map
        (fun p => p.2 * cntOne p.1 0)).sum ≠ schemeUnit.target_constraint.getD 0 0 := by
  decide

/-- C3 (amended to the `'lpsolve'` backend): for a reaction assembled from
any solution satisfying the lpsolve branch's constraint system, every
stoichiometric coefficient magnitude lies between 1 and 4 and the sum of the
absolute coefficients is at most 20.  The claim as stated — covering the
`'pyomo'` backend too — fails, because the pyomo formulation installs
neither the per-variable upper bound of 4 nor the total-coefficient row
(see the counterexample). -/
theorem C3_bounds_lpsolve (S : ErrorCancelingScheme) (subset : List Nat)
    (sol : List ℤ) (hfeas : lpsolveFeasible S subset sol) :
    (∀ p ∈ (findAssemble S subset sol).1.species, 1 ≤ |p.2| ∧ |p.2| ≤ 4)
    ∧ (((findAssemble S subset sol).1.species).map (fun p => |p.2|)).sum ≤ 20 := by
  obtain ⟨hlen, hnn, hub, hsum, hbal⟩ := hfeas
  constructor
  · intro p hp
    have hp' : p ∈ applyUpdates []
        ((List.range sol.length).map (solInsertion S subset sol)) := hp
    rcases mem_applyUpdates _ [] p hp' with h0 | ⟨q, hq, hv⟩
    · exact absurd h0 (List.not_mem_nil p)
    · obtain ⟨i, hi, hins⟩ := List.mem_map.mp hq
      simp only [solInsertion] at hins
      by_cases hpos : 0 < sol.getD i 0
      · rw [if_pos hpos] at hins
        have hq' := (Option.some_injective _ hins).symm
        have hq2 : |q.2| = sol.getD i 0 := by
          by_cases hlt : i < subset.length
          · rw [if_pos hlt] at hq'
            rw [hq']
            exact abs_neg (sol.getD i 0) ▸ abs_of_pos hpos
          · rw [if_neg hlt] at hq'
            rw [hq']
            exact abs_of_pos hpos
        have hle4 : sol.getD i 0 ≤ 4 :=
          getD_le_of_mem sol 4 (by norm_num) hub i
        rw [← hv, hq2]
        exact ⟨hpos, hle4⟩
      · rw [if_neg hpos] at hins
        exact absurd hins (Option.noConfusion)
  · have h1 := sumAbs_applyUpdates
      ((List.range sol.length).map (solInsertion S subset sol)) [] (by simp)
    have hins_le : ∀ i, insAbs (solInsertion S subset sol i) ≤ sol.getD i 0 := by
      intro i
      by_cases hpos : 0 < sol.getD i 0
      · simp only [solInsertion]
        rw [if_pos hpos]
        by_cases hlt : i < subset.length
        · rw [if_pos hlt]
          show |(-(sol.getD i 0))| ≤ sol.getD i 0
          rw [abs_neg, abs_of_pos hpos]
        · rw [if_neg hlt]
          show |sol.getD i 0| ≤ sol.getD i 0
          rw [abs_of_pos hpos]
      · simp only [solInsertion]
        rw [if_neg hpos]
        show (0 : ℤ) ≤ sol.getD i 0
        exact getD_nonneg_of_mem sol hnn i
    have h2 : (((List.range sol.length).map (solInsertion S subset sol)).map insAbs).sum
        ≤ ((List.range sol.length).map (fun i => sol.getD i 0)).sum := by
      rw [List.map_map]
      exact List.sum_le_sum (fun i _ => hins_le i)
    have h3 : ((List.range sol.length).map (fun i => sol.getD i 0)).sum = sol.sum := by
      rw [map_getD_range]
    have hstart : (((findAssemble S subset sol).1.species).map (fun p => |p.2|)).sum
        = ((applyUpdates []
            ((List.range sol.length).map (solInsertion S subset sol))).map
          (fun p => |p.2|)).sum := rfl
    rw [hstart]
    have h1' := h1
    simp only [List.map_nil, List.sum_nil, zero_add] at h1'
    linarith

/-- Witness for C3 (amended): `schemeUnit`, subset `[0]`, lpsolve-feasible
solution `[0, 1]` gives a single coefficient 1 and absolute sum within 20. -/
theorem C3_witness :
    (((findAssemble schemeUnit [0] [0, 1]).1.species).map (fun p => |p.2|)).sum ≤ 20 :=
  (C3_bounds_lpsolve schemeUnit [0] [0, 1] (by decide)).2

/-- Initialized scheme whose target needs five copies of the single
carbon-only benchmark species. -/
def schemeFive : ErrorCancelingScheme :=
  { target := specTargetCH
    constraints := mkSpeciesConstraints ["C", "H"] true true
    benchmark_set := [specBenchCC]
    target_constraint := [5]
    constraint_matrix := [[1]] }

/-- Counterexample for C3 as stated: under the `'pyomo'` backend the
formulation installs no upper bound on the variables, the (unique, hence
also optimal) feasible solution `[0, 5]` is accepted, and the assembled
reaction carries a coefficient of magnitude 5 > 4. -/
theorem C3_counterexample :
    pyomoFeasible schemeFive [0] [0, 5]
    ∧ (findAssemble schemeFive [0] [0, 5]).1.species = [(specBenchCC, 5)]
    ∧ ¬ |((specBenchCC, (5 : ℤ)).2)| ≤ 4 := by
  decide
